import Mathlib

/-!
Verification of the trigger/mask optimization core of the trojanzoo
repository (trojanvision attacks and defenses), shallowly embedded in Lean.

Floating-point scalars of the source are modelled as rationals (ℚ) where
the claims are order/arithmetic facts, and as an abstract type with a
Bool-valued comparison where IEEE incomparability (NaN) matters.
Tensors are modelled as (nested) lists.
-/

namespace Trojanzoo

/-! ### TrojanNN constructor configuration checks
(src/trojanvision/attacks/backdoor/trojannn.py, `TrojanNN.__init__`)

The constructor raises
  `Exception('TrojanNN requires "mark_random_init" to be True ...')`
when `mark.mark_random_init` is false, and then
  `Exception('TrojanNN requires "mark_random_pos" to be False ...')`
when `mark.mark_random_pos` is true; otherwise initialization proceeds.
-/

/-- Embedding of the two configuration checks at the top of
`TrojanNN.__init__`: `.error msg` models a raised `Exception`,
`.ok ()` models passing both checks. -/
def trojanNN_init_check (mark_random_init mark_random_pos : Bool) :
    Except String Unit :=
  if !mark_random_init then
    .error "TrojanNN requires mark_random_init to be True to initialize watermark."
  else if mark_random_pos then
    .error "TrojanNN requires mark_random_pos to be False to max activate neurons."
  else
    .ok ()

/-! ### InputFiltering.score2label
(src/trojanvision/defenses/backdoor/abstract.py, line 122-123)

The default implementation is `torch.cat([clean_scores, poison_scores]).bool()`:
concatenation followed by a cast to boolean, where a score maps to `True`
exactly when it is nonzero.
-/

/-- Embedding of the default `InputFiltering.score2label`:
concatenate the clean scores and the poison scores, then cast each score
to boolean (`True` iff nonzero), exactly as `torch.cat([...]).bool()` does. -/
def score2label (clean_scores poison_scores : List ℚ) : List Bool :=
  (clean_scores ++ poison_scores).map (fun x => decide (x ≠ 0))

/-- C3 counterexample: `[1, 2]` and `[3, 4]` are disjoint sorted score lists
of size `n = 2` each, yet `score2label` maps them to a vector with four
`true` entries and no `false` entry (the cast to boolean sends every
nonzero score to `true`), refuting "exactly n True and exactly n False". -/
theorem score2label_not_balanced :
    ([1, 2] : List ℚ).Sorted (· < ·) ∧ ([3, 4] : List ℚ).Sorted (· < ·) ∧
    (∀ x ∈ ([1, 2] : List ℚ), x ∉ ([3, 4] : List ℚ)) ∧
    (score2label [1, 2] [3, 4]).length = 2 * 2 ∧
    ¬((score2label [1, 2] [3, 4]).count true = 2 ∧
      (score2label [1, 2] [3, 4]).count false = 2) := by
  refine ⟨?_, ?_, ?_, ?_, ?_⟩ <;> decide

/-- C3 amended: `score2label` returns the concatenation of the clean scores
and the poison scores cast to boolean (`true` iff nonzero); on two score
lists of size `n` each the result always has length `2n`, and it has exactly
`n` `true` and `n` `false` entries when all clean scores are zero and
all poison scores are nonzero. -/
theorem score2label_length_and_counts (clean poison : List ℚ) (n : ℕ)
    (hcl : clean.length = n) (hpl : poison.length = n)
    (hc0 : ∀ x ∈ clean, x = 0) (hp0 : ∀ x ∈ poison, x ≠ 0) :
    (score2label clean poison).length = 2 * n ∧
    (score2label clean poison).count true = n ∧
    (score2label clean poison).count false = n := by
  have hmc : clean.map (fun x => decide (x ≠ 0)) = List.replicate n false := by
    rw [List.eq_replicate_iff]
    constructor
    · simp [hcl]
    · intro b hb
      obtain ⟨x, hx, hbx⟩ := List.mem_map.mp hb
      simp [hc0 x hx] at hbx
      exact hbx
  have hmp : poison.map (fun x => decide (x ≠ 0)) = List.replicate n true := by
    rw [List.eq_replicate_iff]
    constructor
    · simp [hpl]
    · intro b hb
      obtain ⟨x, hx, hbx⟩ := List.mem_map.mp hb
      simp [hp0 x hx] at hbx
      exact hbx
  have hsl : score2label clean poison =
      List.replicate n false ++ List.replicate n true := by
    simp only [score2label, List.map_append, hmc, hmp]
  refine ⟨?_, ?_, ?_⟩ <;> simp [hsl, List.count_replicate, two_mul]

/-- Witness for `score2label_length_and_counts` at `clean = [0]`,
`poison = [1]`, `n = 1`. -/
theorem score2label_length_and_counts_witness :
    (∀ x ∈ ([0] : List ℚ), x = 0) ∧ (∀ x ∈ ([1] : List ℚ), x ≠ 0) ∧
    ((score2label [0] [1]).length = 2 * 1 ∧
     (score2label [0] [1]).count true = 1 ∧
     (score2label [0] [1]).count false = 1) :=
  ⟨by decide, by decide,
   score2label_length_and_counts [0] [1] 1 rfl rfl (by decide) (by decide)⟩

/-! ### Bounded reparameterization `tanh_func` -/

/-- Modelled from the spec: `tanh_func` lives in `trojanzoo/utils/tensor.py`,
which is not part of the sources at hand; the spec describes it as a smooth
bounded reparameterization through `tanh` keeping values in `[0, 1]`,
applied elementwise. Elementwise action on one scalar: map `tanh x`,
which ranges over `(-1, 1)`, affinely onto `(0, 1)`. -/
noncomputable def tanh_func (x : ℝ) : ℝ :=
  (Real.tanh x + 1) / 2

theorem abs_tanh_lt_one (x : ℝ) : -1 < Real.tanh x ∧ Real.tanh x < 1 := by
  have hc := Real.cosh_pos x
  have h1 : Real.sinh x < Real.cosh x := Real.sinh_lt_cosh x
  have h2 : Real.sinh (-x) < Real.cosh (-x) := Real.sinh_lt_cosh (-x)
  rw [Real.sinh_neg, Real.cosh_neg] at h2
  rw [Real.tanh_eq_sinh_div_cosh]
  constructor
  · rw [lt_div_iff₀ hc]
    linarith
  · rw [div_lt_one hc]
    exact h1

/-- C4: For every real-valued unconstrained parameter `x`, the bounded
reparameterization `tanh_func x` used to produce the mark/mask lies in the
closed interval `[0, 1]`, regardless of the magnitude of `x`. -/
theorem tanh_func_mem_Icc (x : ℝ) : tanh_func x ∈ Set.Icc (0 : ℝ) 1 := by
  obtain ⟨hlo, hhi⟩ := abs_tanh_lt_one x
  unfold tanh_func
  constructor
  · linarith
  · linarith

/-- C8: TrojanNN construction raises a configuration error whenever the
trigger placement is random (`mark_random_pos = true`), and the placement
check passes (construction succeeds on this check) whenever the placement
is fixed. -/
theorem trojanNN_init_check_random_pos (init : Bool) :
    (trojanNN_init_check init true).isOk = false ∧
    trojanNN_init_check true false = .ok () := by
  cases init <;> exact ⟨rfl, rfl⟩

/-- C10: TrojanNN construction succeeds exactly when the mark is randomly
initialized (`mark_random_init = true`) AND the placement is fixed
(`mark_random_pos = false`); in particular a non-random initialization is
also rejected at construction time. -/
theorem trojanNN_init_check_ok_iff (init pos : Bool) :
    (trojanNN_init_check init pos).isOk = true ↔ (init = true ∧ pos = false) := by
  cases init <;> cases pos <;> decide

/-! ### ModelInspection.optimize_mark: the per-class epoch loop
(src/trojanvision/defenses/backdoor/abstract.py, lines 273-364)

The loop state tracked across epochs is `norm_best` (initialized to
`float('inf')`), `mark_best` (initialized to `None`) and `entropy_best`
(initialized to `None`).  After every epoch the source runs

    if norm.avg < norm_best:        # snapshot when strictly better
        mark_best = mark; norm_best = norm.avg; entropy_best = entropy.avg
    if mark_best is None:           # guard: establish a baseline anyway
        mark_best = mark; norm_best = norm.avg; entropy_best = entropy.avg
    if check_early_stop(...): break

and finally returns `(mark_best, entropy_best)`.  The gradient work inside
an epoch is opaque to these claims, so an epoch is embedded by the data the
snapshot logic reads from it: the current mark tensor and the four
epoch-average meters.  Float comparison is a parameter `flt` of type
`F → F → Bool` (IEEE `<` on floats is not a total order: every comparison
against NaN is `False`); the rational instantiation `qlt` below models the
NaN-free executions. -/

/-- Data of one completed epoch of `optimize_mark`, as read by the
best-snapshot logic: the current (detachable) mark and the averages of the
`Loss`/`Acc`/`Norm`/`Entropy` meters. -/
structure EpochStat (F : Type) (M : Type) where
  mark : M
  lossAvg : F
  accAvg : F
  normAvg : F
  entropyAvg : F
deriving DecidableEq

/-- The best-so-far state threaded through the epoch loop of
`optimize_mark`: `norm_best`, `mark_best`, `entropy_best`. -/
structure OptState (F : Type) (M : Type) where
  norm_best : F
  mark_best : Option M
  entropy_best : Option F
deriving DecidableEq

/-- One execution of the two post-epoch `if` statements of
`optimize_mark` (lines 347-355): snapshot if this epoch's `norm.avg`
compares below `norm_best`, then establish a baseline snapshot anyway if
`mark_best` is still `None`. -/
def epoch_update {F M : Type} (flt : F → F → Bool)
    (s : OptState F M) (e : EpochStat F M) : OptState F M :=
  let s1 := if flt e.normAvg s.norm_best
            then ⟨e.normAvg, some e.mark, some e.entropyAvg⟩ else s
  if s1.mark_best.isNone then ⟨e.normAvg, some e.mark, some e.entropyAvg⟩ else s1

/-- The epoch loop of `optimize_mark` (lines 300-360): run `epoch_update`
after each epoch and stop early when `check_early_stop` (evaluated on the
four epoch averages) returns true. -/
def run_epochs {F M : Type} (flt : F → F → Bool)
    (stop : F → F → F → F → Bool) :
    OptState F M → List (EpochStat F M) → OptState F M
  | s, [] => s
  | s, e :: rest =>
      let s' := epoch_update flt s e
      if stop e.lossAvg e.accAvg e.normAvg e.entropyAvg then s'
      else run_epochs flt stop s' rest

/-- `ModelInspection.optimize_mark` at the level of its epoch-loop state:
start from `norm_best = inf`, `mark_best = None`, `entropy_best = None`
(lines 288-290) and fold the epoch loop over the completed epochs. -/
def optimize_mark {F M : Type} (flt : F → F → Bool)
    (stop : F → F → F → F → Bool) (inf : F)
    (epochs : List (EpochStat F M)) : OptState F M :=
  run_epochs flt stop ⟨inf, none, none⟩ epochs

/-- After any `epoch_update` the `mark_best` slot is populated:
either the comparison branch or the `None`-guard sets it. -/
theorem epoch_update_mark_isSome {F M : Type} (flt : F → F → Bool)
    (s : OptState F M) (e : EpochStat F M) :
    ((epoch_update flt s e).mark_best).isSome = true := by
  unfold epoch_update
  by_cases h1 : flt e.normAvg s.norm_best <;>
    cases hm : s.mark_best <;> simp [h1, hm]

/-- From the initial state, the first `epoch_update` installs the first
epoch as the baseline snapshot whatever the comparison does: if
`flt e.normAvg inf` fails (as it does when `e.normAvg` is NaN), the
`None`-guard fires instead. -/
theorem epoch_update_init {F M : Type} (flt : F → F → Bool) (inf : F)
    (e : EpochStat F M) :
    epoch_update flt ⟨inf, none, none⟩ e
      = ⟨e.normAvg, some e.mark, some e.entropyAvg⟩ := by
  unfold epoch_update
  by_cases h1 : flt e.normAvg inf <;> simp [h1]

/-- `s` is a full snapshot (norm, mark, entropy taken together) of one of
the epochs in `L`. -/
def IsSnapshotOf {F M : Type} (s : OptState F M)
    (L : List (EpochStat F M)) : Prop :=
  ∃ e ∈ L, s = ⟨e.normAvg, some e.mark, some e.entropyAvg⟩

theorem epoch_update_snapshot {F M : Type} (flt : F → F → Bool)
    {s : OptState F M} {L : List (EpochStat F M)} {e : EpochStat F M}
    (hs : IsSnapshotOf s L) (he : e ∈ L) :
    IsSnapshotOf (epoch_update flt s e) L := by
  obtain ⟨e0, he0, hseq⟩ := hs
  subst hseq
  unfold epoch_update
  by_cases h1 : flt e.normAvg
      (OptState.norm_best ⟨e0.normAvg, some e0.mark, some e0.entropyAvg⟩)
  · exact ⟨e, he, by simp [h1]⟩
  · exact ⟨e0, he0, by simp [h1]⟩

theorem run_epochs_snapshot {F M : Type} (flt : F → F → Bool)
    (stop : F → F → F → F → Bool) {L : List (EpochStat F M)} :
    ∀ (l : List (EpochStat F M)) (s : OptState F M),
      (∀ e ∈ l, e ∈ L) → IsSnapshotOf s L →
      IsSnapshotOf (run_epochs flt stop s l) L := by
  intro l
  induction l with
  | nil => intro s _ hs; exact hs
  | cons e rest ih =>
      intro s hsub hs
      have he : e ∈ L := hsub e (List.mem_cons_self e rest)
      have hs' : IsSnapshotOf (epoch_update flt s e) L :=
        epoch_update_snapshot flt hs he
      unfold run_epochs
      by_cases hstop : stop e.lossAvg e.accAvg e.normAvg e.entropyAvg
      · simpa [hstop] using hs'
      · simpa [hstop] using
          ih (epoch_update flt s e)
            (fun x hx => hsub x (List.mem_cons_of_mem e hx)) hs'

/-- On a nonempty epoch list, `optimize_mark` ends in a full snapshot of
one of its epochs (shared core of the graceful-degradation claims). -/
theorem optimize_mark_snapshot {F M : Type} (flt : F → F → Bool)
    (stop : F → F → F → F → Bool) (inf : F)
    {epochs : List (EpochStat F M)} (h : epochs ≠ []) :
    IsSnapshotOf (optimize_mark flt stop inf epochs) epochs := by
  cases epochs with
  | nil => exact absurd rfl h
  | cons e rest =>
      unfold optimize_mark run_epochs
      rw [epoch_update_init]
      have hfirst : IsSnapshotOf
          (⟨e.normAvg, some e.mark, some e.entropyAvg⟩ : OptState F M)
          (e :: rest) := ⟨e, List.mem_cons_self e rest, rfl⟩
      by_cases hstop : stop e.lossAvg e.accAvg e.normAvg e.entropyAvg
      · simpa [hstop] using hfirst
      · simpa [hstop] using
          run_epochs_snapshot flt stop rest _
            (fun x hx => List.mem_cons_of_mem e hx) hfirst

/-- C5: For every epoch count ≥ 1 and every float comparison behavior
(including the one where the first epoch's average norm is incomparable,
e.g. NaN, so that `norm.avg < norm_best` is always `False`),
`optimize_mark` terminates normally and returns a non-`None` best mark
snapshot together with the entropy recorded when that snapshot was taken:
the `None`-guard after the norm comparison guarantees a best is
established. -/
theorem optimize_mark_always_returns_best {F M : Type} (flt : F → F → Bool)
    (stop : F → F → F → F → Bool) (inf : F)
    (epochs : List (EpochStat F M)) (h : epochs ≠ []) :
    ∃ e ∈ epochs,
      (optimize_mark flt stop inf epochs).mark_best = some e.mark ∧
      (optimize_mark flt stop inf epochs).entropy_best = some e.entropyAvg ∧
      (optimize_mark flt stop inf epochs).norm_best = e.normAvg := by
  obtain ⟨e, he, hs⟩ := optimize_mark_snapshot flt stop inf h
  exact ⟨e, he, by rw [hs], by rw [hs], by rw [hs]⟩

/-- Witness for `optimize_mark_always_returns_best` with a single epoch and
the NaN-modelling comparison that always answers `False`: the guard still
installs the epoch as the returned best. -/
theorem optimize_mark_always_returns_best_witness :
    (([⟨7, 1, 2, 3, 4⟩] : List (EpochStat ℚ ℚ)) ≠ []) ∧
    ∃ e ∈ ([⟨7, 1, 2, 3, 4⟩] : List (EpochStat ℚ ℚ)),
      (optimize_mark (fun _ _ => false) (fun _ _ _ _ => false) 0
        [⟨7, 1, 2, 3, 4⟩]).mark_best = some e.mark ∧
      (optimize_mark (fun _ _ => false) (fun _ _ _ _ => false) 0
        [⟨7, 1, 2, 3, 4⟩]).entropy_best = some e.entropyAvg ∧
      (optimize_mark (fun _ _ => false) (fun _ _ _ _ => false) 0
        [⟨7, 1, 2, 3, 4⟩]).norm_best = e.normAvg :=
  ⟨by simp,
   optimize_mark_always_returns_best (fun _ _ => false) (fun _ _ _ _ => false)
     0 [⟨7, 1, 2, 3, 4⟩] (by simp)⟩

/-! ### C1: best-so-far norm monotonicity in the NaN-free executions

`WithTop ℚ` models the float norms together with the initial
`float('inf')`; `qlt` is the strict order comparison the source's
`norm.avg < norm_best` performs on them. -/

/-- Comparison `a < b` on norms extended with `float('inf') = ⊤`. -/
def qlt (a b : WithTop ℚ) : Bool := decide (a < b)

/-- When a best mark is already installed, an `epoch_update` under the
rational comparison never increases `norm_best`. -/
theorem epoch_update_norm_le {M : Type} (s : OptState (WithTop ℚ) M)
    (e : EpochStat (WithTop ℚ) M) (hsome : s.mark_best.isSome = true) :
    (epoch_update qlt s e).norm_best ≤ s.norm_best := by
  unfold epoch_update
  by_cases h1 : qlt e.normAvg s.norm_best
  · have hlt : e.normAvg < s.norm_best := of_decide_eq_true h1
    simp [h1]
    exact le_of_lt hlt
  · cases hm : s.mark_best with
    | none => rw [hm] at hsome; exact absurd hsome (by simp)
    | some m => simp [h1, hm]

/-- When a best mark is already installed, running any suffix of the epoch
loop under the rational comparison never increases `norm_best`. -/
theorem run_epochs_norm_le {M : Type} (stop : _) :
    ∀ (l : List (EpochStat (WithTop ℚ) M)) (s : OptState (WithTop ℚ) M),
      s.mark_best.isSome = true →
      (run_epochs qlt stop s l).norm_best ≤ s.norm_best := by
  intro l
  induction l with
  | nil => intro s _; exact le_refl _
  | cons e rest ih =>
      intro s hsome
      have hle := epoch_update_norm_le s e hsome
      have hsome' := epoch_update_mark_isSome qlt s e
      unfold run_epochs
      by_cases hstop : stop e.lossAvg e.accAvg e.normAvg e.entropyAvg
      · simpa [hstop] using hle
      · simp only [hstop, if_false, Bool.false_eq_true]
        exact le_trans (ih (epoch_update qlt s e) hsome') hle

/-- When a best mark is already installed, extending the epoch list can
only lower the final `norm_best` (the loop may also stop early inside the
first part, in which case the extension changes nothing). -/
theorem run_epochs_append_norm_le {M : Type} (stop : _)
    (post : List (EpochStat (WithTop ℚ) M)) :
    ∀ (pre : List (EpochStat (WithTop ℚ) M)) (s : OptState (WithTop ℚ) M),
      s.mark_best.isSome = true →
      (run_epochs qlt stop s (pre ++ post)).norm_best ≤
        (run_epochs qlt stop s pre).norm_best := by
  intro pre
  induction pre with
  | nil =>
      intro s hsome
      simpa [run_epochs] using run_epochs_norm_le stop post s hsome
  | cons e pre' ih =>
      intro s hsome
      have hsome' := epoch_update_mark_isSome qlt s e
      rw [List.cons_append]
      unfold run_epochs
      by_cases hstop : stop e.lossAvg e.accAvg e.normAvg e.entropyAvg
      · simp [hstop]
      · simp only [hstop, if_false, Bool.false_eq_true]
        exact ih (epoch_update qlt s e) hsome'

/-- C1: For every epoch count ≥ 1 under the rational (NaN-free) comparison,
`optimize_mark` returns `norm_best` at most the epoch-average L1 norm of
the first completed epoch, and the best-so-far norm is monotonically
non-increasing across epochs: running further epochs after any nonempty
prefix can only lower the returned `norm_best`. -/
theorem optimize_mark_norm_best_le {M : Type}
    (stop : WithTop ℚ → WithTop ℚ → WithTop ℚ → WithTop ℚ → Bool)
    (pre post : List (EpochStat (WithTop ℚ) M)) (h : pre ≠ []) :
    (optimize_mark qlt stop ⊤ (pre ++ post)).norm_best ≤
      (optimize_mark qlt stop ⊤ pre).norm_best ∧
    (optimize_mark qlt stop ⊤ pre).norm_best ≤ (pre.head h).normAvg := by
  cases pre with
  | nil => exact absurd rfl h
  | cons e pre' =>
      constructor
      · unfold optimize_mark
        rw [List.cons_append]
        unfold run_epochs
        rw [epoch_update_init]
        by_cases hstop : stop e.lossAvg e.accAvg e.normAvg e.entropyAvg
        · simp [hstop]
        · simp only [hstop, if_false, Bool.false_eq_true]
          exact run_epochs_append_norm_le stop post pre' _ rfl
      · unfold optimize_mark run_epochs
        rw [epoch_update_init]
        by_cases hstop : stop e.lossAvg e.accAvg e.normAvg e.entropyAvg
        · simp [hstop, List.head]
        · simp only [hstop, if_false, Bool.false_eq_true, List.head]
          exact run_epochs_norm_le stop pre' _ rfl

/-- Witness for `optimize_mark_norm_best_le`: one completed epoch of
average norm 3 followed by one of average norm 5; the returned best norm
never rises above 3. -/
theorem optimize_mark_norm_best_le_witness :
    (([⟨(0 : ℚ), 0, 0, 3, 0⟩] : List (EpochStat (WithTop ℚ) ℚ)) ≠ []) ∧
    ((optimize_mark qlt (fun _ _ _ _ => false) ⊤
        ([⟨(0 : ℚ), 0, 0, 3, 0⟩] ++ [⟨(1 : ℚ), 0, 0, 5, 0⟩])).norm_best ≤
      (optimize_mark qlt (fun _ _ _ _ => false) ⊤
        [⟨(0 : ℚ), 0, 0, 3, 0⟩]).norm_best ∧
     (optimize_mark qlt (fun _ _ _ _ => false) ⊤
        [⟨(0 : ℚ), 0, 0, 3, 0⟩]).norm_best ≤ ((3 : ℚ) : WithTop ℚ)) :=
  ⟨by simp,
   optimize_mark_norm_best_le (fun _ _ _ _ => false)
     [⟨(0 : ℚ), 0, 0, 3, 0⟩] [⟨(1 : ℚ), 0, 0, 5, 0⟩] (by simp)⟩

/-! ### ModelInspection.get_mark_loss_list
(src/trojanvision/defenses/backdoor/abstract.py, lines 244-265)

The sweep iterates `label in range(self.model.num_classes)`, calls
`optimize_mark(label)` for each and appends the resulting
`(mark, loss)` pair (the returned pair is `(mark_best, entropy_best)`).
A mark tensor is embedded as a nested list of rationals of shape
(channels, height, width); inside `optimize_mark` every candidate mark is
`tanh_func(atanh_mark)` with `atanh_mark = randn_like(self.attack.mark.mark)`
of shape `(c+1, h, w)`, so per-label epoch marks carry that shape. -/

/-- A nested-list tensor has shape `(c, h, w)`. -/
def hasShape3 (m : List (List (List ℚ))) (c h w : ℕ) : Prop :=
  m.length = c ∧ ∀ p ∈ m, p.length = h ∧ ∀ r ∈ p, r.length = w

instance (m : List (List (List ℚ))) (c h w : ℕ) :
    Decidable (hasShape3 m c h w) := by
  unfold hasShape3; infer_instance

/-- `ModelInspection.get_mark_loss_list`: one `optimize_mark` run per class
label `0 .. num_classes - 1`, in order, collecting the per-class
`(mark_best, entropy_best)` pairs.  `epochsOf label` is the epoch data the
label's run observes. -/
def get_mark_loss_list {F M : Type} (flt : F → F → Bool)
    (stop : F → F → F → F → Bool) (inf : F) (num_classes : ℕ)
    (epochsOf : ℕ → List (EpochStat F M)) : List (Option M × Option F) :=
  (List.range num_classes).map (fun label =>
    ((optimize_mark flt stop inf (epochsOf label)).mark_best,
     (optimize_mark flt stop inf (epochsOf label)).entropy_best))

/-- C6: an inspection sweep over a model with `n` classes produces exactly
`n` (mark, loss) pairs, the `i`-th pair being the result of the run for
label `i`; provided each run sees at least one epoch whose candidate marks
have shape `(c+1, h, w)`, each returned mark is a mark of its own label's
run and has shape `(c+1, h, w)`. -/
theorem get_mark_loss_list_length_shape {F : Type} (flt : F → F → Bool)
    (stop : F → F → F → F → Bool) (inf : F) (n c h w : ℕ)
    (epochsOf : ℕ → List (EpochStat F (List (List (List ℚ)))))
    (hne : ∀ l, l < n → epochsOf l ≠ [])
    (hshape : ∀ l, l < n → ∀ e ∈ epochsOf l, hasShape3 e.mark (c + 1) h w) :
    (get_mark_loss_list flt stop inf n epochsOf).length = n ∧
    ∀ i, i < n → ∃ e ∈ epochsOf i,
      (get_mark_loss_list flt stop inf n epochsOf)[i]? =
        some (some e.mark, some e.entropyAvg) ∧
      hasShape3 e.mark (c + 1) h w := by
  constructor
  · simp [get_mark_loss_list]
  · intro i hi
    obtain ⟨e, he, hs⟩ :=
      optimize_mark_snapshot flt stop inf (hne i hi)
    refine ⟨e, he, ?_, hshape i hi e he⟩
    unfold get_mark_loss_list
    rw [List.getElem?_map, List.getElem?_range hi]
    simp [hs]

/-- Witness for `get_mark_loss_list_length_shape`: one class whose single
epoch carries a mark of shape `(1+1, 1, 1)`. -/
theorem get_mark_loss_list_length_shape_witness :
    (∀ l, l < 1 →
      (fun _ : ℕ => [(⟨[[[0]], [[0]]], 0, 0, 0, 0⟩ :
        EpochStat ℚ (List (List (List ℚ))))]) l ≠ []) ∧
    (∀ l, l < 1 → ∀ e ∈ (fun _ : ℕ => [(⟨[[[0]], [[0]]], 0, 0, 0, 0⟩ :
        EpochStat ℚ (List (List (List ℚ))))]) l,
      hasShape3 e.mark (1 + 1) 1 1) ∧
    ((get_mark_loss_list (fun a b => decide (a < b)) (fun _ _ _ _ => false) 0 1
        (fun _ => [⟨[[[0]], [[0]]], 0, 0, 0, 0⟩])).length = 1 ∧
     ∀ i, i < 1 → ∃ e ∈ (fun _ : ℕ => [(⟨[[[0]], [[0]]], 0, 0, 0, 0⟩ :
        EpochStat ℚ (List (List (List ℚ))))]) i,
      (get_mark_loss_list (fun a b => decide (a < b)) (fun _ _ _ _ => false) 0 1
        (fun _ => [⟨[[[0]], [[0]]], 0, 0, 0, 0⟩]))[i]? =
        some (some e.mark, some e.entropyAvg) ∧
      hasShape3 e.mark (1 + 1) 1 1) :=
  ⟨fun _ _ => by simp, fun l _ e he => by
      simp only [List.mem_singleton] at he
      subst he
      decide,
   get_mark_loss_list_length_shape (fun a b => decide (a < b))
     (fun _ _ _ _ => false) 0 1 1 1 1 (fun _ => [⟨[[[0]], [[0]]], 0, 0, 0, 0⟩])
     (fun _ _ => by simp)
     (fun l _ e he => by
       simp only [List.mem_singleton] at he
       subst he
       decide)⟩

/-! ### TrojanNN.preprocess_mark frame effect
(src/trojanvision/attacks/backdoor/trojannn.py, lines 109-133)

Every write to the shared mark tensor in `preprocess_mark` has the form
`self.mark.mark[:-1] = tanh_func(atanh_mark)` (line 121 inside the loop and
line 131 after it); `detach_` does not change values.  Channel-wise, a mark
is a list of channel planes; a slice assignment to `mark[:-1]` replaces the
color channels and leaves the final alpha/mask channel in place. -/

/-- Effect of the slice assignment `mark[:-1] = new` on the channel list:
the first `len - 1` channels are replaced, the last channel is kept. -/
def set_color_channels (mark : List (List (List ℚ)))
    (new : List (List (List ℚ))) : List (List (List ℚ)) :=
  new.take (mark.length - 1) ++ mark.drop (mark.length - 1)

/-- `TrojanNN.preprocess_mark` as a transformer of the shared mark tensor:
each optimization step writes a fresh set of color channels
(`tanh_func` of the current unconstrained parameter) through
`mark[:-1] = ...`; `updates` is the sequence of written color-channel
stacks, including the final write after the loop. -/
def preprocess_mark (mark : List (List (List ℚ)))
    (updates : List (List (List (List ℚ)))) : List (List (List ℚ)) :=
  updates.foldl set_color_channels mark

theorem set_color_channels_ne_nil (mark new : List (List (List ℚ)))
    (h : mark ≠ []) : set_color_channels mark new ≠ [] := by
  have hd : mark.drop (mark.length - 1) ≠ [] := by
    rw [Ne, List.drop_eq_nil_iff]
    have := List.length_pos.mpr h
    omega
  exact List.append_ne_nil_of_right_ne_nil _ hd

theorem set_color_channels_getLast? (mark new : List (List (List ℚ)))
    (h : mark ≠ []) :
    (set_color_channels mark new).getLast? = mark.getLast? := by
  have hd : mark.drop (mark.length - 1) ≠ [] := by
    rw [Ne, List.drop_eq_nil_iff]
    have := List.length_pos.mpr h
    omega
  unfold set_color_channels
  rw [List.getLast?_append, List.getLast?_eq_getLast _ hd,
    List.getLast_drop, List.getLast?_eq_getLast _ h]
  rfl

/-- C9: `TrojanNN.preprocess_mark` mutates only the color channels of the
shared mark tensor: whatever sequence of color-channel writes the
optimization performs, the alpha/mask channel (the last channel) is left
unchanged by the entire preprocessing loop. -/
theorem preprocess_mark_keeps_alpha (mark : List (List (List ℚ)))
    (updates : List (List (List (List ℚ)))) (h : mark ≠ []) :
    (preprocess_mark mark updates).getLast? = mark.getLast? := by
  induction updates generalizing mark with
  | nil => rfl
  | cons u rest ih =>
      unfold preprocess_mark at ih ⊢
      rw [List.foldl_cons,
        ih (set_color_channels mark u) (set_color_channels_ne_nil mark u h),
        set_color_channels_getLast? mark u h]

/-- Witness for `preprocess_mark_keeps_alpha`: a two-channel mark whose
color channel is rewritten twice; the alpha channel `[[5]]` survives. -/
theorem preprocess_mark_keeps_alpha_witness :
    (([[[1]], [[5]]] : List (List (List ℚ))) ≠ []) ∧
    (preprocess_mark [[[1]], [[5]]] [[[[2]]], [[[3]]]]).getLast? =
      some [[5]] :=
  ⟨by simp, preprocess_mark_keeps_alpha [[[1]], [[5]]] [[[[2]]], [[[3]]]]
    (by simp)⟩

/-! ### ModelInspection.loss_fn and the inner batch loop
(src/trojanvision/defenses/backdoor/abstract.py, lines 267-271 and 309-331)

The model, the trigger application and the criterion are the external
collaborators; they are abstract functions here.  Integer label tensors are
lists of integers; `target * torch.ones_like(_label)` is the constant list
of the same length. -/

/-- L1 norm of a single channel plane, `plane.norm(p=1)`. -/
def l1_norm2 (plane : List (List ℚ)) : ℚ :=
  (plane.map (fun row => (row.map (fun x => |x|)).sum)).sum

/-- `ModelInspection.loss_fn` (lines 267-271): when no `trigger_output` is
passed, recompute it as `model(add_mark(input))`; then apply the model's
criterion against the constant target label tensor. -/
def loss_fn {I O : Type} (model : I → O) (add_mark : I → I)
    (criterion : O → List ℤ → ℚ) (inp : I) (label : List ℤ) (target : ℤ)
    (trigger_output : Option O) : ℚ :=
  criterion (trigger_output.getD (model (add_mark inp)))
    (label.map (fun _ => target))

/-- Metrics computed for one batch of the inner loop of `optimize_mark`. -/
structure BatchStat where
  acc : ℚ
  entropy : ℚ
  norm : ℚ
  loss : ℚ

/-- One iteration of the inner batch loop of `optimize_mark`
(lines 309-326): compute the trigger output once, the batch accuracy, the
classification entropy through `loss_fn` (passing the precomputed trigger
output), the L1 norm of the mask channel `mark[-1]`, and the optimized
loss `batch_entropy + cost * batch_norm`. -/
def process_batch {I O : Type} (model : I → O) (add_mark : I → I)
    (criterion : O → List ℤ → ℚ) (argmax1 : O → List ℤ) (cost : ℚ)
    (mark : List (List (List ℚ))) (inp : I) (label : List ℤ) (target : ℤ) :
    BatchStat :=
  let trigger_output := model (add_mark inp)
  let trigger_label := label.map (fun _ => target)
  let batch_acc :=
    (((trigger_label.zip (argmax1 trigger_output)).countP
      (fun p => p.1 == p.2) : ℚ)) / (label.length : ℚ)
  let batch_entropy :=
    loss_fn model add_mark criterion inp label target (some trigger_output)
  let batch_norm := l1_norm2 ((mark.getLast?).getD [])
  { acc := batch_acc, entropy := batch_entropy, norm := batch_norm,
    loss := batch_entropy + cost * batch_norm }

/-- C7: in every inner-loop iteration, the optimized batch loss equals the
classification loss toward the target class on trigger-applied inputs
(`loss_fn`, which recomputes the same trigger output when none is passed)
plus the cost coefficient times the L1 norm of the mask channel, the last
channel of the mark. -/
theorem batch_loss_eq {I O : Type} (model : I → O) (add_mark : I → I)
    (criterion : O → List ℤ → ℚ) (argmax1 : O → List ℤ) (cost : ℚ)
    (mark : List (List (List ℚ))) (inp : I) (label : List ℤ) (target : ℤ) :
    (process_batch model add_mark criterion argmax1 cost
        mark inp label target).loss =
      loss_fn model add_mark criterion inp label target none +
        cost * l1_norm2 ((mark.getLast?).getD []) :=
  rfl

/-! ### TrojanNN.get_neuron_idx
(src/trojanvision/attacks/backdoor/trojannn.py, lines 95-100)

The source reads `state_dict[preprocess_next_layer + '.weight']`, takes
elementwise absolute values, averages over dimension 0 (the output
dimension of the NEXT layer), and returns
`argsort(descending=False)[:neuron_num]`.  The fully-connected (2-D weight
matrix) path is modelled; `argsort` is modelled as a stable sort of the
indices by value. -/

/-- Ranking relation for `argsort` ascending over the value list `v`. -/
def rank_le (v : List ℚ) (i j : ℕ) : Prop := v.getD i 0 ≤ v.getD j 0

instance (v : List ℚ) : DecidableRel (rank_le v) := fun i j =>
  inferInstanceAs (Decidable (v.getD i 0 ≤ v.getD j 0))

instance (v : List ℚ) : IsTotal ℕ (rank_le v) :=
  ⟨fun a b => le_total (v.getD a 0) (v.getD b 0)⟩

instance (v : List ℚ) : IsTrans ℕ (rank_le v) :=
  ⟨fun _ _ _ hab hbc => le_trans hab hbc⟩

/-- `torch.argsort(v, descending=False)`: indices of `v` sorted by
ascending value. -/
def argsort_asc (v : List ℚ) : List ℕ :=
  List.insertionSort (rank_le v) (List.range v.length)

/-- Mean of absolute values over dimension 0: entry `j` is the average of
`|w[i][j]|` over the rows `i` (`weight.abs().mean(0)` for a 2-D weight). -/
def absMeanCols (w : List (List ℚ)) : List ℚ :=
  (List.range (w.headD []).length).map
    (fun j => ((w.map (fun row => |row.getD j 0|)).sum) / (w.length : ℚ))

/-- `TrojanNN.get_neuron_idx`: rank the columns of the next layer's weight
matrix by mean absolute weight, ascending, and keep the first
`neuron_num`. -/
def get_neuron_idx (weight : List (List ℚ)) (neuron_num : ℕ) : List ℕ :=
  (argsort_asc (absMeanCols weight)).take neuron_num

/-- Selection rule stated by the spec, for the refinement comparison:
"select the k least-activated neurons (by mean absolute activation across
the dataset) at that layer".  `acts` holds one activation vector at the
chosen layer per dataset sample; neurons are ranked by the mean of the
absolute activations over the samples. -/
def least_activated_neurons (acts : List (List ℚ)) (k : ℕ) : List ℕ :=
  (argsort_asc (absMeanCols acts)).take k

/-- C2 counterexample: with next-layer weight matrix `[[1, 2]]` the code
selects neuron `0` (smallest mean absolute weight), while for a dataset
whose layer activations are `[[9, 1]]` the least-activated neuron is `1`:
`get_neuron_idx` ranks by next-layer weights, not by mean absolute
activation across the dataset (which it never reads). -/
theorem get_neuron_idx_not_activation_based :
    get_neuron_idx [[1, 2]] 1 = [0] ∧
    least_activated_neurons [[9, 1]] 1 = [1] ∧
    get_neuron_idx [[1, 2]] 1 ≠ least_activated_neurons [[9, 1]] 1 := by
  have hw : absMeanCols [[1, 2]] = [1, 2] := by
    norm_num [absMeanCols, List.range_succ]
  have ha : absMeanCols [[9, 1]] = [9, 1] := by
    norm_num [absMeanCols, List.range_succ]
  have h1 : get_neuron_idx [[1, 2]] 1 = [0] := by
    rw [get_neuron_idx, hw]
    norm_num [argsort_asc, List.range_succ, List.insertionSort,
      List.orderedInsert, rank_le]
  have h2 : least_activated_neurons [[9, 1]] 1 = [1] := by
    rw [least_activated_neurons, ha]
    norm_num [argsort_asc, List.range_succ, List.insertionSort,
      List.orderedInsert, rank_le]
  exact ⟨h1, h2, by rw [h1, h2]; simp⟩

/-- C2 amended: `TrojanNN.get_neuron_idx` selects the `neuron_num` neurons
with the smallest mean absolute weight in the next layer's weight matrix
(mean of `|weight|` over the output dimension): it returns
`min neuron_num m` indices of columns, each selected column's mean
absolute weight being at most that of every unselected column. -/
theorem get_neuron_idx_selects_least_weight (weight : List (List ℚ))
    (neuron_num : ℕ) :
    (get_neuron_idx weight neuron_num).length =
      min neuron_num (absMeanCols weight).length ∧
    (∀ i ∈ get_neuron_idx weight neuron_num,
      i < (absMeanCols weight).length) ∧
    (∀ i ∈ get_neuron_idx weight neuron_num,
      ∀ j, j < (absMeanCols weight).length →
        j ∉ get_neuron_idx weight neuron_num →
        (absMeanCols weight).getD i 0 ≤ (absMeanCols weight).getD j 0) := by
  set v := absMeanCols weight with hv
  have hperm : List.Perm (argsort_asc v) (List.range v.length) :=
    List.perm_insertionSort (rank_le v) (List.range v.length)
  have hsorted : (argsort_asc v).Sorted (rank_le v) :=
    List.sorted_insertionSort (rank_le v) (List.range v.length)
  have hlen : (argsort_asc v).length = v.length := by
    rw [hperm.length_eq, List.length_range]
  refine ⟨?_, ?_, ?_⟩
  · rw [get_neuron_idx, List.length_take, hlen]
  · intro i hi
    have : i ∈ argsort_asc v := List.mem_of_mem_take hi
    rw [hperm.mem_iff, List.mem_range] at this
    exact this
  · intro i hi j hj hjn
    have hjs : j ∈ argsort_asc v := by
      rw [hperm.mem_iff, List.mem_range]
      exact hj
    have hsplit := List.take_append_drop neuron_num (argsort_asc v)
    have hjd : j ∈ (argsort_asc v).drop neuron_num := by
      rcases List.mem_append.mp (by rw [hsplit]; exact hjs) with hcase | hcase
      · exact absurd hcase hjn
      · exact hcase
    have hpw : ((argsort_asc v).take neuron_num ++
        (argsort_asc v).drop neuron_num).Pairwise (rank_le v) := by
      rw [hsplit]
      exact hsorted
    exact (List.pairwise_append.mp hpw).2.2 i hi j hjd

/-- Witness for `get_neuron_idx_selects_least_weight` at weight `[[1, 2]]`
and `neuron_num = 1`: the selected column 0 has mean absolute weight at
most that of the unselected column 1. -/
theorem get_neuron_idx_selects_least_weight_witness :
    (0 ∈ get_neuron_idx [[1, 2]] 1) ∧
    (1 < (absMeanCols [[1, 2]]).length) ∧
    (1 ∉ get_neuron_idx [[1, 2]] 1) ∧
    (absMeanCols [[1, 2]]).getD 0 0 ≤ (absMeanCols [[1, 2]]).getD 1 0 := by
  have hw : absMeanCols [[1, 2]] = [1, 2] := by
    norm_num [absMeanCols, List.range_succ]
  have h1 : get_neuron_idx [[1, 2]] 1 = [0] := by
    rw [get_neuron_idx, hw]
    norm_num [argsort_asc, List.range_succ, List.insertionSort,
      List.orderedInsert, rank_le]
  exact ⟨by rw [h1]; simp, by rw [hw]; simp, by rw [h1]; simp,
    (get_neuron_idx_selects_least_weight [[1, 2]] 1).2.2 0 (by rw [h1]; simp) 1
      (by rw [hw]; simp) (by rw [h1]; simp)⟩

end Trojanzoo
